import Mathlib

/-!
Verification of the rubric-scoring core of the Carbon-Crunch code reviewer
(`backend/app/code_reviewer.py`, class `AiCodeReviewer`).

Modelling conventions:
* Python strings are Lean `String`s; line-level processing works on `String.data`
  (a `List Char`), with `splitLines` mirroring Python `str.split('\n')`.
* Python floats are modelled as exact rationals; Python `round` (round half to
  even) is `pythonRound`.
* Python dicts built by assignment are association lists with an
  insert-or-overwrite operation (`pyDictInsert`); `dict.get(k, d)` is
  `pyDictGetD`.
* The CPython `ast` module is external to the repository, so `ast.parse` is a
  parameter `parse : String → Option PyNode`; `none` models a `SyntaxError`.
  The node kinds inspected by the rubric checks are embedded in `PyNode`,
  and `ast.walk` is `walk` (traversal order is irrelevant: every rule only
  counts nodes).
* Raising an exception is modelled with `Except`: `analyzeCode` returns
  `Except String AnalysisResult`.
-/

/-- Python `round` for an exact rational: round half to even (banker
rounding), as the CPython builtin `round` behaves on floats. -/
def pythonRound (q : ℚ) : ℤ :=
  if q - ⌊q⌋ < 1/2 then ⌊q⌋
  else if (1:ℚ)/2 < q - ⌊q⌋ then ⌊q⌋ + 1
  else if ⌊q⌋ % 2 = 0 then ⌊q⌋ else ⌊q⌋ + 1

theorem pythonRound_intCast (n : ℤ) : pythonRound (n : ℚ) = n := by
  simp [pythonRound]

theorem floor_le_pythonRound (q : ℚ) : ⌊q⌋ ≤ pythonRound q := by
  unfold pythonRound
  split
  · exact le_refl _
  · split
    · exact le_of_lt (lt_add_one _)
    · split
      · exact le_refl _
      · exact le_of_lt (lt_add_one _)

theorem pythonRound_le_ceil (q : ℚ) : pythonRound q ≤ ⌈q⌉ := by
  unfold pythonRound
  split
  · exact Int.floor_le_ceil q
  · have hfrac : ∀ h : (1:ℚ)/2 ≤ q - ⌊q⌋, ⌊q⌋ + 1 ≤ ⌈q⌉ := by
      intro h
      have hlt : ((⌊q⌋ : ℚ)) < q := by linarith
      exact Int.lt_ceil.mpr hlt
    split
    · exact hfrac (by linarith [show ¬ (q - (⌊q⌋:ℚ) < 1/2) from by assumption])
    · have hle : (1:ℚ)/2 ≤ q - ⌊q⌋ := le_of_not_lt (by assumption)
      split
      · exact Int.floor_le_ceil q
      · exact hfrac hle

theorem pythonRound_nonneg (q : ℚ) (h : 0 ≤ q) : 0 ≤ pythonRound q :=
  le_trans (Int.floor_nonneg.mpr h) (floor_le_pythonRound q)

theorem pythonRound_le_int (q : ℚ) (n : ℤ) (h : q ≤ (n : ℚ)) :
    pythonRound q ≤ n :=
  le_trans (pythonRound_le_ceil q) (Int.ceil_le.mpr h)

/-- The six scoring categories (`self.categories` keys). -/
inductive Category where
  | naming
  | modularity
  | comments
  | formatting
  | reusability
  | best_practices
deriving DecidableEq, Repr

/-- Maximum weight of each category (`self.categories` values). -/
def categoryWeight : Category → ℤ
  | .naming => 10
  | .modularity => 20
  | .comments => 20
  | .formatting => 15
  | .reusability => 15
  | .best_practices => 20

/-- Lower-case name of each category, as used for dict keys. -/
def categoryName : Category → String
  | .naming => "naming"
  | .modularity => "modularity"
  | .comments => "comments"
  | .formatting => "formatting"
  | .reusability => "reusability"
  | .best_practices => "best_practices"

/-- The categories in the insertion order of `self.categories`. -/
def categoryList : List Category :=
  [.naming, .modularity, .comments, .formatting, .reusability, .best_practices]

/-!
### The Python syntax tree

`PyNode` embeds the `ast` node kinds that the rubric checks inspect
(`FunctionDef`, `AsyncFunctionDef`, `Expr` over `Str`, `Name`, `Call`,
`Global`, `Try`, `ExceptHandler`); every other node kind is `other`, keeping
only its child list so that `walk` still reaches nested nodes.  Function
parameters (`node.args.args`) are `ast.arg` objects, inspected only through
`len`, so they are kept as a list of names.
-/

inductive PyNode where
  | module (body : List PyNode)
  | functionDef (name : String) (args : List String) (body : List PyNode)
  | asyncFunctionDef (name : String) (args : List String) (body : List PyNode)
  | exprStmt (value : PyNode)
  | constStr (s : String)
  | nameNode (id : String)
  | call (func : PyNode) (args : List PyNode)
  | globalDecl (names : List String)
  | tryStmt (body : List PyNode) (handlers : List PyNode)
      (orelse : List PyNode) (finalBody : List PyNode)
  | exceptHandler (body : List PyNode)
  | other (children : List PyNode)

mutual

/-- `ast.walk`: the node itself and, recursively, all its descendants.
(`ast.walk` is breadth-first; every rubric rule only counts nodes, so the
order is irrelevant and a depth-first list is used.) -/
def walk : PyNode → List PyNode
  | .module body => .module body :: walkList body
  | .functionDef n a body => .functionDef n a body :: walkList body
  | .asyncFunctionDef n a body => .asyncFunctionDef n a body :: walkList body
  | .exprStmt v => .exprStmt v :: walk v
  | .constStr s => [.constStr s]
  | .nameNode i => [.nameNode i]
  | .call f a => .call f a :: (walk f ++ walkList a)
  | .globalDecl ns => [.globalDecl ns]
  | .tryStmt b h o fb =>
      .tryStmt b h o fb :: (walkList b ++ walkList h ++ walkList o ++ walkList fb)
  | .exceptHandler b => .exceptHandler b :: walkList b
  | .other c => .other c :: walkList c

def walkList : List PyNode → List PyNode
  | [] => []
  | n :: ns => walk n ++ walkList ns

end

/-!
### Text helpers

Python `str.split('\n')`, `str.strip()` truthiness, `str.startswith`,
`str.lower`, and the character classes of the regexes used by the reviewer
(ASCII, which covers every literal the rules compare against).
-/

/-- Python `s.split('\n')` on the character list of `s`: note `"".split`
gives `[""]` and a trailing newline yields a final empty line. -/
def splitLines : List Char → List (List Char)
  | [] => [[]]
  | c :: rest =>
    if c = '\n' then [] :: splitLines rest
    else
      match splitLines rest with
      | [] => [[c]]
      | l :: ls => (c :: l) :: ls

/-- Characters stripped by Python `str.strip()` (none beyond ASCII occur in
lines split on newlines here). -/
def pySpace (c : Char) : Bool :=
  c = ' ' || c = '\t' || c = '\n' || c = '\r' || c = '\x0b' || c = '\x0c'

/-- Truthiness of `line.strip()`: the line has a non-whitespace character. -/
def pyStripNonEmpty (line : List Char) : Bool :=
  line.any (fun c => !(pySpace c))

def isLowerAlpha (c : Char) : Bool := 'a' ≤ c && c ≤ 'z'

def isUpperAlpha (c : Char) : Bool := 'A' ≤ c && c ≤ 'Z'

def isDigitChar (c : Char) : Bool := '0' ≤ c && c ≤ '9'

/-- Regex `\w` (ASCII). -/
def isWordChar (c : Char) : Bool :=
  isLowerAlpha c || isUpperAlpha c || isDigitChar c || c = '_'

/-- Python `str.lower` on a character (ASCII). -/
def pyLowerChar (c : Char) : Char :=
  if isUpperAlpha c then Char.ofNat (c.toNat + 32) else c

/-- The value of a run of digit characters, as `int()` parses it. -/
def digitsToNat (ds : List Char) : ℕ :=
  ds.foldl (fun n c => 10 * n + (c.toNat - '0'.toNat)) 0

/-!
### The six static rubric checks (`_check_*` methods)

Each loop `score -= k` over `ast.walk(tree)` is a `foldl` subtracting a
per-node penalty, followed by the `max(0, score)` of the source.
-/

/-- Fold of `score -= f node` over a node list, as in the `_check_*` loops. -/
def penFoldl (f : PyNode → ℤ) (init : ℤ) (ns : List PyNode) : ℤ :=
  ns.foldl (fun s n => s - f n) init

/-- Regex `^[a-z][a-z0-9_]*$` of `_check_naming_conventions`. -/
def validName (s : String) : Bool :=
  match s.data with
  | [] => false
  | c :: rest =>
    isLowerAlpha c && rest.all (fun d => isLowerAlpha d || isDigitChar d || d = '_')

/-- Per-node penalty of `_check_naming_conventions`: 2 for each
function/async-function definition or name reference whose identifier fails
the regex. -/
def namingPenalty : PyNode → ℤ
  | .functionDef n _ _ => if validName n then 0 else 2
  | .asyncFunctionDef n _ _ => if validName n then 0 else 2
  | .nameNode i => if validName i then 0 else 2
  | _ => 0

def checkNamingConventions (tree : PyNode) : ℤ :=
  max 0 (penFoldl namingPenalty 10 (walk tree))

/-- Per-node penalty of `_check_modularity`: for each function/async-function
definition, 5 if its body has more than 20 statements plus 3 if it has more
than 5 parameters. -/
def modularityPenalty : PyNode → ℤ
  | .functionDef _ args body =>
      (if 20 < body.length then 5 else 0) + (if 5 < args.length then 3 else 0)
  | .asyncFunctionDef _ args body =>
      (if 20 < body.length then 5 else 0) + (if 5 < args.length then 3 else 0)
  | _ => 0

def checkModularity (tree : PyNode) : ℤ :=
  max 0 (penFoldl modularityPenalty 20 (walk tree))

/-- A bare string-literal expression statement (`ast.Expr` over `ast.Str`). -/
def isDocstringStmt : PyNode → Bool
  | .exprStmt (.constStr _) => true
  | _ => false

def countDocstrings (tree : PyNode) : ℕ :=
  (walk tree).countP isDocstringStmt

/-- `_check_comments`: `min(20, 20 + docstrings * 5)`.  The source re-parses
the code string; on the success path of `_analyze_python` the parse is the
same deterministic parse that produced `tree`, so the check is stated on the
tree. -/
def checkComments (tree : PyNode) : ℤ :=
  min 20 (20 + (countDocstrings tree : ℤ) * 5)

/-- The per-line penalty condition of `_check_formatting`:
`len(line) > 79 or (line.strip() and not line.startswith(' ' * 4))`. -/
def isBadLine (line : List Char) : Bool :=
  79 < line.length || (pyStripNonEmpty line && !(line.take 4 = [' ', ' ', ' ', ' ']))

/-- `_check_formatting`: start at 15, subtract 2 per penalized line of
`code.split('\n')`, floor at 0. -/
def checkFormatting (code : String) : ℤ :=
  max 0 ((splitLines code.data).foldl
    (fun score line => if isBadLine line then score - 2 else score) 15)

/-- The callee identifiers counted by `_check_reusability`: `ast.Call` nodes
whose `func` has an `id` attribute, i.e. whose callee is an `ast.Name`. -/
def calleeIds (tree : PyNode) : List String :=
  (walk tree).filterMap fun n =>
    match n with
    | .call (.nameNode i) _ => some i
    | _ => none

/-- `defaultdict(int)` increment: bump the count of `k`, starting at 0. -/
def bumpCount : List (String × ℕ) → String → List (String × ℕ)
  | [], k => [(k, 1)]
  | (k', c) :: rest, k =>
    if k' = k then (k', c + 1) :: rest else (k', c) :: bumpCount rest k

/-- The `function_calls` dict of `_check_reusability`. -/
def tally (ids : List String) : List (String × ℕ) :=
  ids.foldl bumpCount []

/-- `_check_reusability`: `max(0, 15 - sum(2 for count in values if count > 3))`. -/
def checkReusability (tree : PyNode) : ℤ :=
  max 0 (15 - ((tally (calleeIds tree)).map
    (fun p => if 3 < p.2 then (2 : ℤ) else 0)).sum)

def isExceptHandler : PyNode → Bool
  | .exceptHandler _ => true
  | _ => false

/-- Per-node penalty of `_check_best_practices`: 5 per `global` statement,
3 per `try` with no exception handler attached. -/
def bestPracticesPenalty : PyNode → ℤ
  | .globalDecl _ => 5
  | .tryStmt _ handlers _ _ => if handlers.any isExceptHandler then 0 else 3
  | _ => 0

def checkBestPractices (tree : PyNode) : ℤ :=
  max 0 (penFoldl bestPracticesPenalty 20 (walk tree))

/-- `_analyze_python`: `ast.parse` under `try`; a `SyntaxError` yields
`{category: 0 for category in self.categories}`, otherwise the six checks
run on the parsed tree (the formatting and comments checks take the raw
code; comments re-parses it, deterministically giving the same tree). -/
def analyzePython (parse : String → Option PyNode) (code : String) :
    Category → ℤ :=
  match parse code with
  | none => fun _ => 0
  | some tree => fun c =>
    match c with
    | .naming => checkNamingConventions tree
    | .modularity => checkModularity tree
    | .comments => checkComments tree
    | .formatting => checkFormatting code
    | .reusability => checkReusability tree
    | .best_practices => checkBestPractices tree

/-!
### Python dict model and the feedback extractors
-/

/-- Python dict assignment `d[k] = v`: overwrite in place, else append. -/
def pyDictInsert : List (String × ℤ) → String → ℤ → List (String × ℤ)
  | [], k, v => [(k, v)]
  | (k', v') :: rest, k, v =>
    if k' = k then (k, v) :: rest else (k', v') :: pyDictInsert rest k v

/-- Python `d[k]` as an option (keys are unique in `pyDictInsert` images). -/
def pyDictFind (d : List (String × ℤ)) (k : String) : Option ℤ :=
  (d.find? (fun p => p.1 = k)).map Prod.snd

/-- Python `d.get(k, dflt)`. -/
def pyDictGetD (d : List (String × ℤ)) (k : String) (dflt : ℤ) : ℤ :=
  (pyDictFind d k).getD dflt

/-- `re.match(r"(\w+):\s*(\d+)", line)` of `_extract_scores`, returning
(lower-cased group 1, int(group 2)).  `re.match` anchors at the line start
only; the greedy `\w+` takes the maximal word-character prefix, then `':'`,
then `\s*` skips whitespace, then `\d+` needs at least one digit.  On a
match the source records `lowercase(word) → int(digits)`. -/
def parseScoreLine (line : List Char) : Option (String × ℤ) :=
  match line.takeWhile isWordChar, line.dropWhile isWordChar with
  | [], _ => none
  | w, ':' :: rest =>
    match (rest.dropWhile pySpace).takeWhile isDigitChar with
    | [] => none
    | ds => some (String.mk (w.map pyLowerChar), (digitsToNat ds : ℤ))
  | _, _ => none

/-- One loop iteration of `_extract_scores`: on a regex match, assign
`scores[group(1).lower()] = int(group(2))`; otherwise leave the dict. -/
def scoreStep (d : List (String × ℤ)) (line : List Char) : List (String × ℤ) :=
  match parseScoreLine line with
  | some (k, v) => pyDictInsert d k v
  | none => d

/-- `_extract_scores`: line-by-line regex matching into a dict, later lines
overwriting earlier ones. -/
def extractScores (feedback : String) : List (String × ℤ) :=
  (splitLines feedback.data).foldl scoreStep []

/-- `_extract_recommendations`: `line[2:]` of every line starting `"- "`. -/
def extractRecommendations (feedback : String) : List String :=
  (splitLines feedback.data).filterMap fun l =>
    if l.take 2 = ['-', ' '] then some (String.mk (l.drop 2)) else none

/-!
### Combining (`_combine_metrics`, `_combine_recommendations`,
`_calculate_overall_score`) and `analyze_code`
-/

/-- `_combine_metrics` at one category:
`round((static.get(c, 0) * 0.7 + ai.get(c, 0) * 0.3) * (weight / 100))`.
The static dict always carries all six categories, so it is a total
function. -/
def combineMetrics (staticMetrics : Category → ℤ) (aiMetrics : List (String × ℤ))
    (c : Category) : ℤ :=
  pythonRound (((staticMetrics c : ℚ) * (7/10)
    + (pyDictGetD aiMetrics (categoryName c) 0 : ℚ) * (3/10))
    * ((categoryWeight c : ℚ) / 100))

def snakeCaseMsg : String := "Use snake_case for function and variable names."

def breakDownMsg : String :=
  "Consider breaking down long functions into smaller, focused functions."

/-- The `static_recommendations` list of `_combine_recommendations`. -/
def staticRecommendations (staticMetrics : Category → ℤ) : List String :=
  (if staticMetrics .naming < 8 then [snakeCaseMsg] else [])
    ++ (if staticMetrics .modularity < 15 then [breakDownMsg] else [])

/-- `_combine_recommendations`:
`list(set(static_recommendations + ai_recommendations))[:5]`.  The Python
`set` deduplicates with unspecified order; `List.dedup` fixes one order,
which is sound for the order-free properties proved below. -/
def combineRecommendations (staticMetrics : Category → ℤ)
    (aiRecommendations : List String) : List String :=
  ((staticRecommendations staticMetrics ++ aiRecommendations).dedup).take 5

/-- `sum(metrics.values())` over the six categories. -/
def sumValues (m : Category → ℤ) : ℤ :=
  (categoryList.map m).sum

/-- `sum(self.categories.values())`. -/
def totalWeight : ℤ := (categoryList.map categoryWeight).sum

/-- `_calculate_overall_score`: `round(sum(values) / sum(weights) * 100)`. -/
def calculateOverallScore (m : Category → ℤ) : ℤ :=
  pythonRound (((sumValues m : ℚ) / (totalWeight : ℚ)) * 100)

structure AnalysisResult where
  overall_score : ℤ
  breakdown : Category → ℤ
  recommendations : List String
  detailed_feedback : String

/-- `language_map` lookup with the language itself as default. -/
def normalizeLanguage (language : String) : String :=
  if language = "py" then "python"
  else if language = "js" then "javascript"
  else if language = "jsx" then "javascript"
  else language

/-- `analyze_code(code, language, context)`.  `aiResponse` stands for the
free-text reply of the external model (`response.text`); the prompt built
from `code`/`context` does not influence the embedded computation.  The
`javascript` branch calls `self._analyze_javascript`, a method the class
never defines, so it raises `AttributeError`; the final branch raises
`ValueError(f"Unsupported language: {language}")`. -/
def analyzeCode (parse : String → Option PyNode) (aiResponse : String)
    (code language : String) : Except String AnalysisResult :=
  let lang := normalizeLanguage language
  if lang = "python" then
    let staticAnalysis := analyzePython parse code
    let aiScores := extractScores aiResponse
    let aiRecommendations := extractRecommendations aiResponse
    let combined := combineMetrics staticAnalysis aiScores
    let recommendations := combineRecommendations staticAnalysis aiRecommendations
    .ok
      { overall_score := calculateOverallScore combined
        breakdown := combined
        recommendations := recommendations.take 5
        detailed_feedback := aiResponse }
  else if lang = "javascript" || lang = "jsx" then
    .error "AttributeError: AiCodeReviewer has no attribute _analyze_javascript"
  else
    .error ("Unsupported language: " ++ lang)

/-!
### Helper lemmas
-/

theorem penFoldl_eq (f : PyNode → ℤ) (init : ℤ) (ns : List PyNode) :
    penFoldl f init ns = init - (ns.map f).sum := by
  induction ns generalizing init with
  | nil => simp [penFoldl]
  | cons n ns ih =>
    have h := ih (init - f n)
    simp only [penFoldl, List.foldl_cons] at h ⊢
    rw [h, List.map_cons, List.sum_cons]
    ring

theorem penFoldl_le_init (f : PyNode → ℤ) (init : ℤ) (ns : List PyNode)
    (hf : ∀ n, 0 ≤ f n) : penFoldl f init ns ≤ init := by
  rw [penFoldl_eq]
  have : 0 ≤ (ns.map f).sum := List.sum_nonneg (by
    intro x hx
    obtain ⟨n, _, rfl⟩ := List.mem_map.mp hx
    exact hf n)
  omega

theorem namingPenalty_nonneg (n : PyNode) : 0 ≤ namingPenalty n := by
  cases n <;> simp only [namingPenalty] <;>
    first
    | (split <;> norm_num)
    | norm_num

theorem modularityPenalty_nonneg (n : PyNode) : 0 ≤ modularityPenalty n := by
  cases n <;> simp only [modularityPenalty] <;> positivity

theorem bestPracticesPenalty_nonneg (n : PyNode) : 0 ≤ bestPracticesPenalty n := by
  cases n <;> simp only [bestPracticesPenalty] <;>
    first
    | (split <;> norm_num)
    | norm_num

theorem checkNamingConventions_bounds (tree : PyNode) :
    0 ≤ checkNamingConventions tree ∧ checkNamingConventions tree ≤ 10 :=
  ⟨le_max_left _ _,
    max_le (by norm_num) (penFoldl_le_init _ _ _ namingPenalty_nonneg)⟩

theorem checkModularity_bounds (tree : PyNode) :
    0 ≤ checkModularity tree ∧ checkModularity tree ≤ 20 :=
  ⟨le_max_left _ _,
    max_le (by norm_num) (penFoldl_le_init _ _ _ modularityPenalty_nonneg)⟩

theorem checkBestPractices_bounds (tree : PyNode) :
    0 ≤ checkBestPractices tree ∧ checkBestPractices tree ≤ 20 :=
  ⟨le_max_left _ _,
    max_le (by norm_num) (penFoldl_le_init _ _ _ bestPracticesPenalty_nonneg)⟩

theorem checkComments_eq (tree : PyNode) : checkComments tree = 20 := by
  have h : (0:ℤ) ≤ (countDocstrings tree : ℤ) := Int.natCast_nonneg _
  simp only [checkComments]
  omega

theorem formatFold_eq (init : ℤ) (ls : List (List Char)) :
    ls.foldl (fun score line => if isBadLine line then score - 2 else score) init
      = init - 2 * ((ls.countP isBadLine : ℕ) : ℤ) := by
  induction ls generalizing init with
  | nil => simp
  | cons l ls ih =>
    simp only [List.foldl_cons, List.countP_cons]
    rw [ih]
    split <;> simp_all <;> push_cast <;> ring

theorem checkFormatting_eq (code : String) :
    checkFormatting code
      = max 0 (15 - 2 * (((splitLines code.data).countP isBadLine : ℕ) : ℤ)) := by
  simp only [checkFormatting, formatFold_eq]

theorem checkFormatting_bounds (code : String) :
    0 ≤ checkFormatting code ∧ checkFormatting code ≤ 15 := by
  rw [checkFormatting_eq]
  have h : (0:ℤ) ≤ (((splitLines code.data).countP isBadLine : ℕ) : ℤ) :=
    Int.natCast_nonneg _
  omega

theorem checkReusability_bounds (tree : PyNode) :
    0 ≤ checkReusability tree ∧ checkReusability tree ≤ 15 := by
  refine ⟨le_max_left _ _, max_le (by norm_num) ?_⟩
  have h : 0 ≤ ((tally (calleeIds tree)).map
      (fun p => if 3 < p.2 then (2 : ℤ) else 0)).sum := by
    refine List.sum_nonneg ?_
    intro x hx
    obtain ⟨p, _, rfl⟩ := List.mem_map.mp hx
    split <;> norm_num
  omega

/-!
### The claims
-/

/-- C1: for every input declared as python whose parse fails (`ast.parse`
raises `SyntaxError`), `_analyze_python` returns score 0 for all six
categories.  The embedding is a total function, so the fail-closed branch
provably returns rather than raising. -/
theorem spec_C1 (parse : String → Option PyNode) (code : String)
    (h : parse code = none) (c : Category) : analyzePython parse code c = 0 := by
  simp [analyzePython, h]

theorem spec_C1_witness :
    analyzePython (fun _ => none) "def f(:" Category.naming = 0
      ∧ analyzePython (fun _ => none) "def f(:" Category.modularity = 0
      ∧ analyzePython (fun _ => none) "def f(:" Category.comments = 0
      ∧ analyzePython (fun _ => none) "def f(:" Category.formatting = 0
      ∧ analyzePython (fun _ => none) "def f(:" Category.reusability = 0
      ∧ analyzePython (fun _ => none) "def f(:" Category.best_practices = 0 :=
  ⟨spec_C1 _ _ rfl _, spec_C1 _ _ rfl _, spec_C1 _ _ rfl _,
    spec_C1 _ _ rfl _, spec_C1 _ _ rfl _, spec_C1 _ _ rfl _⟩

/-- C5: the comments score is `min(20, 20 + 5 * count)` of the bare
string-literal expression statements in the tree, hence exactly 20 as soon
as at least one such statement exists, however many more there are. -/
theorem spec_C5 (tree : PyNode) :
    checkComments tree = min 20 (20 + 5 * (countDocstrings tree : ℤ))
      ∧ (1 ≤ countDocstrings tree → checkComments tree = 20) := by
  constructor
  · simp only [checkComments]
    ring_nf
  · intro _
    exact checkComments_eq tree

theorem spec_C5_witness :
    1 ≤ countDocstrings (.module [.exprStmt (.constStr "doc"),
        .exprStmt (.constStr "more"), .exprStmt (.constStr "again")])
      ∧ checkComments (.module [.exprStmt (.constStr "doc"),
          .exprStmt (.constStr "more"), .exprStmt (.constStr "again")]) = 20 :=
  ⟨by decide,
    (spec_C5 (.module [.exprStmt (.constStr "doc"), .exprStmt (.constStr "more"),
      .exprStmt (.constStr "again")])).2 (by decide)⟩

/-- C8: on the successful-parse path every static category score lies
between 0 and the category maximum. -/
theorem spec_C8 (parse : String → Option PyNode) (code : String)
    (tree : PyNode) (h : parse code = some tree) (c : Category) :
    0 ≤ analyzePython parse code c
      ∧ analyzePython parse code c ≤ categoryWeight c := by
  have hc : 0 ≤ checkComments tree ∧ checkComments tree ≤ 20 := by
    rw [checkComments_eq]
    norm_num
  cases c <;>
    simp only [analyzePython, h, categoryWeight] <;>
    first
    | exact checkNamingConventions_bounds tree
    | exact checkModularity_bounds tree
    | exact hc
    | exact checkFormatting_bounds code
    | exact checkReusability_bounds tree
    | exact checkBestPractices_bounds tree

theorem spec_C8_witness :
    0 ≤ analyzePython (fun _ => some (.module [.nameNode "BadName"])) "BadName"
        Category.naming
      ∧ analyzePython (fun _ => some (.module [.nameNode "BadName"])) "BadName"
          Category.naming ≤ categoryWeight Category.naming :=
  spec_C8 (fun _ => some (.module [.nameNode "BadName"])) "BadName"
    (.module [.nameNode "BadName"]) rfl Category.naming

/-- C10: the unpenalized comments base already equals the cap, so on the
successful-parse path the comments score is 20 for every tree, also with
zero bare string-literal expression statements. -/
theorem spec_C10 (parse : String → Option PyNode) (code : String)
    (tree : PyNode) (h : parse code = some tree) :
    analyzePython parse code Category.comments = 20 := by
  simp [analyzePython, h, checkComments_eq]

theorem spec_C10_witness :
    analyzePython (fun _ => some (.module [])) "x = 1" Category.comments = 20
      ∧ countDocstrings (.module []) = 0 :=
  ⟨spec_C10 (fun _ => some (.module [])) "x = 1" (.module []) rfl, by decide⟩

/-- C2: the per-category blend is Python
`round((static*0.7 + ai.get(category, 0)*0.3) * (weight/100))`; for static
and external scores in `[0, 100]` the result lies in `[0, category_max]`,
and a category missing from the external scores enters the formula as 0. -/
theorem spec_C2 (staticMetrics : Category → ℤ) (aiMetrics : List (String × ℤ))
    (c : Category)
    (hs0 : 0 ≤ staticMetrics c) (hs1 : staticMetrics c ≤ 100)
    (he0 : 0 ≤ pyDictGetD aiMetrics (categoryName c) 0)
    (he1 : pyDictGetD aiMetrics (categoryName c) 0 ≤ 100) :
    combineMetrics staticMetrics aiMetrics c
        = pythonRound (((staticMetrics c : ℚ) * (7/10)
            + (pyDictGetD aiMetrics (categoryName c) 0 : ℚ) * (3/10))
            * ((categoryWeight c : ℚ) / 100))
      ∧ 0 ≤ combineMetrics staticMetrics aiMetrics c
      ∧ combineMetrics staticMetrics aiMetrics c ≤ categoryWeight c
      ∧ (pyDictFind aiMetrics (categoryName c) = none →
          combineMetrics staticMetrics aiMetrics c
            = pythonRound ((staticMetrics c : ℚ) * (7/10)
                * ((categoryWeight c : ℚ) / 100))) := by
  have hw : (0:ℤ) ≤ categoryWeight c := by cases c <;> norm_num [categoryWeight]
  have hwq : (0:ℚ) ≤ (categoryWeight c : ℚ) := by exact_mod_cast hw
  have hsq0 : (0:ℚ) ≤ (staticMetrics c : ℚ) := by exact_mod_cast hs0
  have hsq1 : (staticMetrics c : ℚ) ≤ 100 := by exact_mod_cast hs1
  have heq0 : (0:ℚ) ≤ (pyDictGetD aiMetrics (categoryName c) 0 : ℚ) := by
    exact_mod_cast he0
  have heq1 : (pyDictGetD aiMetrics (categoryName c) 0 : ℚ) ≤ 100 := by
    exact_mod_cast he1
  have hq0 : (0:ℚ) ≤ ((staticMetrics c : ℚ) * (7/10)
      + (pyDictGetD aiMetrics (categoryName c) 0 : ℚ) * (3/10))
      * ((categoryWeight c : ℚ) / 100) := by positivity
  have hq1 : ((staticMetrics c : ℚ) * (7/10)
      + (pyDictGetD aiMetrics (categoryName c) 0 : ℚ) * (3/10))
      * ((categoryWeight c : ℚ) / 100) ≤ (categoryWeight c : ℚ) := by
    nlinarith
  refine ⟨rfl, ?_, ?_, ?_⟩
  · exact pythonRound_nonneg _ hq0
  · exact pythonRound_le_int _ _ hq1
  · intro hmiss
    have hz : pyDictGetD aiMetrics (categoryName c) 0 = 0 := by
      simp [pyDictGetD, hmiss]
    simp only [combineMetrics, hz]
    congr 1
    push_cast
    ring

theorem spec_C2_witness :
    0 ≤ pyDictGetD [] (categoryName Category.naming) 0
      ∧ pyDictGetD [] (categoryName Category.naming) 0 ≤ 100
      ∧ 0 ≤ combineMetrics (fun _ => 50) [] Category.naming
      ∧ combineMetrics (fun _ => 50) [] Category.naming
          ≤ categoryWeight Category.naming := by
  have h := spec_C2 (fun _ => 50) [] Category.naming (by norm_num) (by norm_num)
    (by decide) (by decide)
  exact ⟨by decide, by decide, h.2.1, h.2.2.1⟩

/-- C3: with the six maxima summing to 100, the overall score
`round(sum(values) / sum(maxima) * 100)` collapses to the exact sum of the
combined values, and lies in `[0, 100]` whenever each combined value is
within its category maximum. -/
theorem spec_C3 (m : Category → ℤ) (h : ∀ c, 0 ≤ m c ∧ m c ≤ categoryWeight c) :
    calculateOverallScore m = sumValues m
      ∧ 0 ≤ calculateOverallScore m ∧ calculateOverallScore m ≤ 100 := by
  have htot : totalWeight = 100 := by decide
  have heq : calculateOverallScore m = sumValues m := by
    simp only [calculateOverallScore, htot]
    have : ((sumValues m : ℚ) / ((100 : ℤ) : ℚ)) * 100 = (sumValues m : ℚ) := by
      push_cast
      ring
    rw [this, pythonRound_intCast]
  have hsum : 0 ≤ sumValues m ∧ sumValues m ≤ 100 := by
    have h1 := h .naming
    have h2 := h .modularity
    have h3 := h .comments
    have h4 := h .formatting
    have h5 := h .reusability
    have h6 := h .best_practices
    simp only [categoryWeight] at h1 h2 h3 h4 h5 h6
    simp only [sumValues, categoryList, List.map_cons, List.map_nil,
      List.sum_cons, List.sum_nil]
    omega
  exact ⟨heq, heq ▸ hsum.1, heq ▸ hsum.2⟩

theorem spec_C3_witness :
    calculateOverallScore categoryWeight = sumValues categoryWeight
      ∧ 0 ≤ calculateOverallScore categoryWeight
      ∧ calculateOverallScore categoryWeight ≤ 100 :=
  spec_C3 categoryWeight (by intro c; cases c <;> norm_num [categoryWeight])

/-- C6: `_combine_recommendations` adds the snake_case hint exactly when the
static naming score is below 8 and the break-down hint exactly when the
static modularity score is below 15, merges them with the extracted
recommendations, deduplicates and truncates: the result has at most 5
entries, no duplicates, and nothing that came from neither source. -/
theorem spec_C6 (staticMetrics : Category → ℤ) (aiRecommendations : List String) :
    (combineRecommendations staticMetrics aiRecommendations).length ≤ 5
      ∧ (combineRecommendations staticMetrics aiRecommendations).Nodup
      ∧ (snakeCaseMsg ∈ staticRecommendations staticMetrics
          ↔ staticMetrics .naming < 8)
      ∧ (breakDownMsg ∈ staticRecommendations staticMetrics
          ↔ staticMetrics .modularity < 15)
      ∧ ∀ s ∈ combineRecommendations staticMetrics aiRecommendations,
          s ∈ staticRecommendations staticMetrics ∨ s ∈ aiRecommendations := by
  have hne : snakeCaseMsg ≠ breakDownMsg := by decide
  have hne2 : breakDownMsg ≠ snakeCaseMsg := Ne.symm hne
  refine ⟨?_, ?_, ?_, ?_, ?_⟩
  · simp only [combineRecommendations, List.length_take]
    exact min_le_left _ _
  · exact (List.nodup_dedup _).sublist (List.take_sublist _ _)
  · by_cases h1 : staticMetrics .naming < 8 <;>
      by_cases h2 : staticMetrics .modularity < 15 <;>
        simp [staticRecommendations, h1, h2, hne]
  · by_cases h1 : staticMetrics .naming < 8 <;>
      by_cases h2 : staticMetrics .modularity < 15 <;>
        simp [staticRecommendations, h1, h2, hne2]
  · intro s hs
    exact List.mem_append.mp
      (List.mem_dedup.mp (List.take_subset _ _ hs))

theorem spec_C6_witness :
    (combineRecommendations (fun _ => 0) ["x"]).length ≤ 5
      ∧ ("x" ∈ staticRecommendations (fun _ => 0) ∨ "x" ∈ ["x"]) := by
  have h := spec_C6 (fun _ => 0) ["x"]
  exact ⟨h.1, h.2.2.2.2 "x" (by decide)⟩

/-- C9: when the language, after extension-alias normalization, is neither
python nor javascript, `analyze_code` raises
`ValueError(f"Unsupported language: {language}")`.  The conclusion holds
for every `parse` and every external response, so the outcome depends on
neither the static scoring nor the external feedback source: no partial
result is produced. -/
theorem spec_C9 (parse : String → Option PyNode) (aiResponse : String)
    (code language : String)
    (h1 : normalizeLanguage language ≠ "python")
    (h2 : normalizeLanguage language ≠ "javascript") :
    analyzeCode parse aiResponse code language
      = .error ("Unsupported language: " ++ normalizeLanguage language) := by
  have h3 : normalizeLanguage language ≠ "jsx" := by
    simp only [normalizeLanguage]
    split
    · decide
    · split
      · decide
      · split
        · decide
        · intro hc
          subst hc
          simp_all
  simp [analyzeCode, h1, h2, h3]

theorem spec_C9_witness :
    analyzeCode (fun _ => none) "" "" "ruby"
      = Except.error "Unsupported language: ruby" := by
  have hn : normalizeLanguage "ruby" = "ruby" := by decide
  have h := spec_C9 (fun _ => none) "" "" "ruby" (by decide) (by decide)
  rw [h, hn]
  rfl

/-!
### Lemmas on `splitLines`, for stating line addition at the string level
-/

theorem splitLines_ne_nil (cs : List Char) : splitLines cs ≠ [] := by
  induction cs with
  | nil => simp [splitLines]
  | cons c rest ih =>
    simp only [splitLines]
    split
    · simp
    · cases hsc : splitLines rest with
      | nil => simp
      | cons l ls => simp

theorem splitLines_no_newline (l : List Char) (h : ∀ c ∈ l, c ≠ '\n') :
    splitLines l = [l] := by
  induction l with
  | nil => rfl
  | cons c rest ih =>
    have hc : c ≠ '\n' := h c (List.mem_cons_self c rest)
    have hrest : splitLines rest = [rest] :=
      ih (fun d hd => h d (List.mem_cons_of_mem c hd))
    simp [splitLines, hc, hrest]

theorem splitLines_append_newline (cs line : List Char)
    (h : ∀ c ∈ line, c ≠ '\n') :
    splitLines (cs ++ '\n' :: line) = splitLines cs ++ [line] := by
  induction cs with
  | nil =>
    simp [splitLines, splitLines_no_newline line h]
  | cons c rest ih =>
    by_cases hc : c = '\n'
    · simp [splitLines, hc, ih]
    · simp only [List.cons_append, splitLines, hc, if_neg hc]
      cases hsc : splitLines rest with
      | nil => exact absurd hsc (splitLines_ne_nil rest)
      | cons m ms =>
        simp only [List.append_eq]
        rw [ih, hsc]
        simp

/-- C4: the formatting score of any source text is
`max(0, 15 - 2 * #{lines that are over 79 characters or non-blank without a
four-space indent})`; all lines conforming gives the maximum 15, and
appending one non-conforming line to a conforming body lowers the result by
exactly 2, to 13. -/
theorem spec_C4 (code : String) :
    checkFormatting code
        = max 0 (15 - 2 * (((splitLines code.data).countP isBadLine : ℕ) : ℤ))
      ∧ ((∀ l ∈ splitLines code.data, isBadLine l = false) →
          checkFormatting code = 15)
      ∧ ∀ badLine : List Char,
          (∀ l ∈ splitLines code.data, isBadLine l = false) →
          isBadLine badLine = true → (∀ c ∈ badLine, c ≠ '\n') →
          checkFormatting (String.mk (code.data ++ '\n' :: badLine)) = 13 := by
  refine ⟨checkFormatting_eq code, ?_, ?_⟩
  · intro hgood
    have hz : (splitLines code.data).countP isBadLine = 0 :=
      List.countP_eq_zero.mpr (by simpa using hgood)
    rw [checkFormatting_eq, hz]
    norm_num
  · intro badLine hgood hbad hnl
    have hsplit : splitLines (code.data ++ '\n' :: badLine)
        = splitLines code.data ++ [badLine] :=
      splitLines_append_newline code.data badLine hnl
    have hz : (splitLines code.data).countP isBadLine = 0 :=
      List.countP_eq_zero.mpr (by simpa using hgood)
    rw [checkFormatting_eq]
    simp only [String.data]
    rw [hsplit, List.countP_append, hz]
    simp [List.countP_cons, hbad]

theorem spec_C4_witness :
    checkFormatting (String.mk ("    x = 1".data ++ '\n' :: "yy".data)) = 13
      ∧ checkFormatting "    x = 1" = 15 := by
  have h := spec_C4 "    x = 1"
  exact ⟨h.2.2 "yy".data (by decide) (by decide) (by decide),
    h.2.1 (by decide)⟩

/-!
### Dict lemmas for the extractor
-/

theorem pyDictFind_insert (d : List (String × ℤ)) (k : String) (v : ℤ)
    (q : String) :
    pyDictFind (pyDictInsert d k v) q
      = if k = q then some v else pyDictFind d q := by
  induction d with
  | nil =>
    by_cases h : k = q
    · simp [pyDictInsert, pyDictFind, h]
    · simp [pyDictInsert, pyDictFind, h]
  | cons p rest ih =>
    obtain ⟨a, b⟩ := p
    by_cases ha : a = k
    · subst ha
      by_cases hq : a = q
      · simp [pyDictInsert, pyDictFind, hq]
      · simp [pyDictInsert, pyDictFind, hq]
    · have hins : pyDictInsert ((a, b) :: rest) k v
          = (a, b) :: pyDictInsert rest k v := by
        simp [pyDictInsert, ha]
      by_cases hq : a = q
      · subst hq
        have hkq : ¬(k = a) := fun h => ha h.symm
        simp [hins, pyDictFind, hkq]
      · have h1 : pyDictFind ((a, b) :: pyDictInsert rest k v) q
            = pyDictFind (pyDictInsert rest k v) q := by
          simp [pyDictFind, hq]
        have h2 : pyDictFind ((a, b) :: rest) q = pyDictFind rest q := by
          simp [pyDictFind, hq]
        rw [hins, h1, h2, ih]

/-- The value of the last line whose regex match records the key `k`
(`none` when no line records `k`). -/
def lastScoreFor (lines : List (List Char)) (k : String) : Option ℤ :=
  (((lines.filterMap parseScoreLine).filter (fun p => p.1 = k)).map
    Prod.snd).getLast?

theorem pyDictFind_scoreFoldl (lines : List (List Char))
    (d : List (String × ℤ)) (k : String) :
    pyDictFind (lines.foldl scoreStep d) k
      = (lastScoreFor lines k).elim (pyDictFind d k) some := by
  induction lines generalizing d with
  | nil => simp [lastScoreFor]
  | cons l ls ih =>
    rw [List.foldl_cons, ih]
    cases hp : parseScoreLine l with
    | none =>
      simp [scoreStep, lastScoreFor, hp, List.filterMap_cons]
    | some p =>
      obtain ⟨k', v⟩ := p
      have hstep : scoreStep d l = pyDictInsert d k' v := by
        simp [scoreStep, hp]
      by_cases hk : k' = k
      · subst hk
        have hcons : lastScoreFor (l :: ls) k'
            = some ((lastScoreFor ls k').getD v) := by
          simp only [lastScoreFor, List.filterMap_cons, hp]
          rw [List.filter_cons_of_pos (by simp), List.map_cons,
            List.getLast?_cons]
        rw [hstep, hcons]
        cases hls : lastScoreFor ls k' with
        | none => simp [hls, pyDictFind_insert]
        | some w => simp [hls]
      · have hcons : lastScoreFor (l :: ls) k = lastScoreFor ls k := by
          simp only [lastScoreFor, List.filterMap_cons, hp]
          rw [List.filter_cons_of_neg (by simp [hk])]
        rw [hstep, hcons]
        cases hls : lastScoreFor ls k with
        | none => simp [hls, pyDictFind_insert, hk]
        | some w => simp [hls]

/-- C7: the score extractor records, for each key, the value of the last
line matching `(\w+):\s*(\d+)` that lower-cases to that key (later lines
overwrite earlier ones), and the recommendation extractor keeps the
remainder of every `"- "` line; on the feedback consisting of the lines
`"Naming: 85"` and `"- Use more descriptive variable names"` this yields
the external score `naming ↦ 85` and exactly that one recommendation. -/
theorem spec_C7 :
    (∀ (feedback : String) (k : String),
        pyDictFind (extractScores feedback) k
          = lastScoreFor (splitLines feedback.data) k)
      ∧ pyDictFind
          (extractScores "Naming: 85\n- Use more descriptive variable names")
          "naming" = some 85
      ∧ extractRecommendations
          "Naming: 85\n- Use more descriptive variable names"
          = ["Use more descriptive variable names"] := by
  refine ⟨?_, ?_, ?_⟩
  · intro feedback k
    rw [extractScores, pyDictFind_scoreFoldl]
    cases hls : lastScoreFor (splitLines feedback.data) k with
    | none => simp [hls, pyDictFind]
    | some w => simp [hls]
  · decide
  · decide
